import Mathlib

/-!
Shallow embedding of the bergamot status bar (src/lib.rs and
src/bin/bergamot.rs).  Rust `f64` values (cursor positions, widths,
rectangle coordinates) are modelled as `ℚ`; the pango text-measuring
call `Layout::new` (an external Canvas collaborator) is modelled as an
oracle function `measure : String → ℚ` stored on each `Output`,
matching `layout.pixel_size()`'s width component; the constant `+ 10`
from `Layout::new` is kept.  X window handles are modelled as `Nat`.
-/

namespace Bergamot

/-- `Colour` from src/lib.rs: three byte channels.  `u8` is modelled as
`Nat` (all constructed values are < 256). -/
structure Colour where
  red : Nat
  green : Nat
  blue : Nat
deriving DecidableEq, Repr

/-- `MouseButton` from src/lib.rs. -/
inductive MouseButton where
  | left
  | middle
  | right
  | scrollUp
  | scrollDown
  | scrollLeft
  | scrollRight
deriving DecidableEq, Repr

/-- `ClickHandler` from src/lib.rs: a button paired with an output string. -/
structure ClickHandler where
  button : MouseButton
  output : String
deriving DecidableEq, Repr

/-- `Colours` from src/lib.rs: optional fg/bg overrides. -/
structure Colours where
  fg : Option Colour
  bg : Option Colour
deriving DecidableEq, Repr

/-- `Area` from src/lib.rs: display text, colour overrides, click handlers. -/
structure Area where
  text : String
  colours : Colours
  on_click : List ClickHandler
deriving DecidableEq, Repr

/-- `Constraint` from src/lib.rs: single variant `Monitor(MonitorConstraint)`,
the newtype `MonitorConstraint(usize)` collapsed to `Nat`. -/
inductive Constraint where
  | monitor (m : Nat)
deriving DecidableEq, Repr

/-- `Constraints` from src/lib.rs: newtype over a vector of constraints. -/
structure Constraints where
  cs : List Constraint
deriving DecidableEq, Repr

/-- `Constraints::monitor` from src/lib.rs: the monitor indices, in order
(`filter_map` over the single `Monitor` variant). -/
def Constraints.monitors (c : Constraints) : List Nat :=
  c.cs.filterMap (fun x => match x with | .monitor m => some m)

/-- `Alignment` from src/lib.rs. -/
inductive Alignment where
  | left
  | center
  | right
deriving DecidableEq, Repr

/-- `Alignment::is_center` from src/lib.rs. -/
def Alignment.is_center : Alignment → Bool
  | .center => true
  | _ => false

/-- `Alignment::is_right` from src/lib.rs. -/
def Alignment.is_right : Alignment → Bool
  | .right => true
  | _ => false

/-- `Widget` from src/lib.rs. -/
structure Widget where
  tag : String
  alignment : Alignment
  content : List Area
  constraints : Constraints
deriving DecidableEq, Repr

/-- `Rectangle` from src/lib.rs, `f64` fields as `ℚ`. -/
structure Rectangle where
  x : ℚ
  y : ℚ
  width : ℚ
  height : ℚ
deriving DecidableEq, Repr

/-- `Paint` from src/lib.rs: x-bounds, owning window handle, and a
by-value snapshot of the producing `Area`. -/
structure Paint where
  left : ℚ
  right : ℚ
  win : Nat
  area : Area
deriving DecidableEq, Repr

/-- `Config` from src/lib.rs. -/
structure Config where
  height : Nat
  font_str : String
  default_bg : Colour
  default_fg : Colour
deriving DecidableEq, Repr

/-- `Output` from src/lib.rs: monitor rectangle, window handle, config.
The cairo context and pango font are replaced by the text-measuring
oracles `measure`/`measureH` (width and height components of
`layout.pixel_size()` for this output's font). -/
structure Output where
  rect : Rectangle
  win : Nat
  cfg : Config
  measure : String → ℚ
  measureH : String → ℚ

/-- `Layout` from src/lib.rs (the pango layout handle dropped; only the
measured extents remain). -/
structure Layout where
  width : ℚ
  height : ℚ
deriving DecidableEq, Repr

/-- `Layout::new` from src/lib.rs: `area_width = pixel_size().0 + 10`,
`layout_height = pixel_size().1`, via the output's measuring oracle. -/
def Layout.new (out : Output) (a : Area) : Layout :=
  { width := out.measure a.text + 10, height := out.measureH a.text }

/-- `Cursors` from src/lib.rs. -/
structure Cursors where
  top : ℚ
  bottom : ℚ
  left : ℚ
  center : ℚ
  right : ℚ
deriving DecidableEq, Repr

/-- `Cursors::bump_left` from src/lib.rs: returns `(old, new)` and the
updated cursors (mutation made explicit). -/
def Cursors.bump_left (c : Cursors) (amt : ℚ) : (ℚ × ℚ) × Cursors :=
  ((c.left, c.left + amt), { c with left := c.left + amt })

/-- `Cursors::bump_right` from src/lib.rs: `self.right += by`, so the
right cursor moves by `+amt`. -/
def Cursors.bump_right (c : Cursors) (amt : ℚ) : (ℚ × ℚ) × Cursors :=
  ((c.right, c.right + amt), { c with right := c.right + amt })

/-- `Cursors::bump_center` from src/lib.rs. -/
def Cursors.bump_center (c : Cursors) (amt : ℚ) : (ℚ × ℚ) × Cursors :=
  ((c.center, c.center + amt), { c with center := c.center + amt })

/-- `Cursors::make_bounding_rectangle` from src/lib.rs. -/
def Cursors.make_bounding_rectangle (c : Cursors) (w : Widget) (l : Layout) :
    Rectangle × Cursors :=
  let bumped :=
    match w.alignment with
    | .left => c.bump_left l.width
    | .right => c.bump_right l.width
    | .center => c.bump_center l.width
  let lr := bumped.1
  let c1 := bumped.2
  ({ x := lr.1, y := c1.top, width := lr.2 - lr.1, height := c1.bottom - c1.top }, c1)

/-- `Cursors::as_rectangle` from src/lib.rs. -/
def Cursors.as_rectangle (c : Cursors) : Rectangle :=
  { x := c.left, y := c.top, width := c.right - c.left, height := c.bottom - c.top }

/-!
The `display` function of src/bin/bergamot.rs.  Canvas calls
(`set_colour`, `rectangle`, `fill`, `move_to`, `Layout::display`) only
draw pixels; the observable result is the returned `Vec<Paint>`, which
we compute.  The per-item state (cursors) is threaded explicitly.
-/

/-- One element of the iterator built in `display`:
`(w, a, Layout::new(&output.ctx, a, &output.font.0))`. -/
abbrev DisplayItem := Widget × Area × Layout

/-- The `flat_map` of `display` (src/bin/bergamot.rs lines 11-19):
each widget paired with each of its areas and that area's layout. -/
def itemsFor (out : Output) (widgets : List Widget) : List DisplayItem :=
  widgets.flatMap (fun w => w.content.map (fun a => (w, a, Layout.new out a)))

/-- The `continue` condition of the paint loop (src/bin/bergamot.rs
lines 41-47): skip a widget when its monitor constraints are non-empty
and none names this output's index. -/
def skipWidget (output_no : Nat) (w : Widget) : Bool :=
  !w.constraints.monitors.isEmpty && !(w.constraints.monitors.any (fun m => m == output_no))

/-- The body of the paint loop of `display` (src/bin/bergamot.rs lines
40-77), threading the cursors and collecting the pushed `Paint`s in
order.  Returns the paints and the final cursors. -/
def paintLoopAux (output_no : Nat) (win : Nat) :
    Cursors → List DisplayItem → List Paint × Cursors
  | c, [] => ([], c)
  | c, (w, a, l) :: rest =>
    if skipWidget output_no w then
      paintLoopAux output_no win c rest
    else
      let rc := c.make_bounding_rectangle w l
      let tail := paintLoopAux output_no win rc.2 rest
      ({ left := rc.1.x, right := rc.1.x + rc.1.width, win := win, area := a } :: tail.1,
       tail.2)

/-- Ghost-instrumented copy of `paintLoopAux` that also records which
`Widget` produced each `Paint` (the `widget` binder of the loop).  Used
to state origin properties; `paintLoopAux_eq_tagged` proves it projects
to `paintLoopAux`. -/
def paintLoopTaggedAux (output_no : Nat) (win : Nat) :
    Cursors → List DisplayItem → List (Widget × Paint) × Cursors
  | c, [] => ([], c)
  | c, (w, a, l) :: rest =>
    if skipWidget output_no w then
      paintLoopTaggedAux output_no win c rest
    else
      let rc := c.make_bounding_rectangle w l
      let tail := paintLoopTaggedAux output_no win rc.2 rest
      ((w, { left := rc.1.x, right := rc.1.x + rc.1.width, win := win, area := a }) :: tail.1,
       tail.2)

/-- The initial cursors of one output's pass (src/bin/bergamot.rs lines
28-34), given the sums `center_width` and `right_width`. -/
def seedCursors (out : Output) (center_width right_width : ℚ) : Cursors :=
  { top := 0
    bottom := (out.cfg.height : ℚ)
    left := 0
    center := out.rect.width / 2 - center_width / 2
    right := out.rect.width - right_width }

/-- One iteration of the outer loop of `display` (src/bin/bergamot.rs
lines 10-78): partition this output's items, seed the cursors, and run
the paint loop over `left ++ right ++ centered`. -/
def displayOutput (output_no : Nat) (out : Output) (widgets : List Widget) : List Paint :=
  let items := itemsFor out widgets
  let centered := items.filter (fun x => x.1.alignment.is_center)
  let uncentered := items.filter (fun x => !x.1.alignment.is_center)
  let rightItems := uncentered.filter (fun x => x.1.alignment.is_right)
  let leftItems := uncentered.filter (fun x => !x.1.alignment.is_right)
  let center_width : ℚ := (centered.map (fun x => x.2.2.width)).sum
  let right_width : ℚ := (rightItems.map (fun x => x.2.2.width)).sum
  (paintLoopAux output_no out.win (seedCursors out center_width right_width)
    (leftItems ++ rightItems ++ centered)).1

/-- Ghost-instrumented copy of `displayOutput` built on
`paintLoopTaggedAux`; `displayOutput_eq_tagged` proves it projects to
`displayOutput`. -/
def displayOutputTagged (output_no : Nat) (out : Output) (widgets : List Widget) :
    List (Widget × Paint) :=
  let items := itemsFor out widgets
  let centered := items.filter (fun x => x.1.alignment.is_center)
  let uncentered := items.filter (fun x => !x.1.alignment.is_center)
  let rightItems := uncentered.filter (fun x => x.1.alignment.is_right)
  let leftItems := uncentered.filter (fun x => !x.1.alignment.is_right)
  let center_width : ℚ := (centered.map (fun x => x.2.2.width)).sum
  let right_width : ℚ := (rightItems.map (fun x => x.2.2.width)).sum
  (paintLoopTaggedAux output_no out.win (seedCursors out center_width right_width)
    (leftItems ++ rightItems ++ centered)).1

/-- The whole `display` function: the outer loop over
`windows.iter().enumerate()`, all paints accumulated in order. -/
def display (windows : List Output) (widgets : List Widget) : List Paint :=
  windows.enum.flatMap (fun p => displayOutput p.1 p.2 widgets)

/-!
The Widget Store operations of the stdin thread of src/bin/bergamot.rs
(lines 136-157).  The mutex-guarded `Vec<Widget>` becomes an explicit
list; the returned `Bool` records whether `tx.send(())` (the redraw
signal) ran.
-/

/-- `widgets.iter_mut().find(|w| w.tag == tag)` followed by
`widget.content = content; tx.send(())`: replace the content of the
first widget with the given tag; the `Bool` is true iff one was found
(iff the redraw signal was sent). -/
def updateWidgets (tag : String) (content : List Area) :
    List Widget → List Widget × Bool
  | [] => ([], false)
  | w :: ws =>
    if w.tag = tag then
      ({ w with content := content } :: ws, true)
    else
      let r := updateWidgets tag content ws
      (w :: r.1, r.2)

/-- The `Command::Update` branch (src/bin/bergamot.rs lines 136-148):
an empty tag is rejected before touching the store (`continue`, no
send); otherwise the first matching widget's content is replaced and
the redraw signal sent, or nothing happens if no tag matches. -/
def updateStore (ws : List Widget) (tag : String) (content : List Area) :
    List Widget × Bool :=
  if tag = "" then (ws, false) else updateWidgets tag content ws

/-- The `Command::Draw` branch (src/bin/bergamot.rs lines 150-157):
`widgets.clear(); *widgets = new_widgets; tx.send(())`. -/
def drawStore (ws : List Widget) (new_widgets : List Widget) :
    List Widget × Bool :=
  let _ := ws
  (new_widgets, true)

/-!
The ButtonPress hit-test of the main loop (src/bin/bergamot.rs lines
189-225).
-/

/-- `Iterator::min_by` over paint widths (`(p.right - p.left).partial_cmp`):
a left fold that keeps the accumulator unless the candidate is strictly
smaller, so the first element among equal minima wins, as Rust's
`min_by` documents. -/
def minByWidth : List Paint → Option Paint
  | [] => none
  | p :: rest =>
    some (rest.foldl
      (fun acc q => if acc.right - acc.left > q.right - q.left then q else acc) p)

/-- The hit-test filter and selection (src/bin/bergamot.rs lines
195-202): among paints on the pressed window whose `[left, right]`
contains `x`, the one of minimal width. -/
def hitTest (paints : List Paint) (win : Nat) (x : ℚ) : Option Paint :=
  minByWidth (paints.filter (fun p => decide (p.win = win ∧ p.left ≤ x ∧ x ≤ p.right)))

/-- The `evt.detail()` to `MouseButton` mapping (src/bin/bergamot.rs
lines 207-216). -/
def buttonOfDetail (detail : Nat) : Option MouseButton :=
  match detail with
  | 1 => some .left
  | 2 => some .middle
  | 3 => some .right
  | 4 => some .scrollUp
  | 5 => some .scrollDown
  | 6 => some .scrollLeft
  | 7 => some .scrollRight
  | _ => none

/-- The full ButtonPress handler (src/bin/bergamot.rs lines 189-225):
the `output` strings printed, in order, for a press of `detail` at `x`
on window `win` against the current paints. -/
def buttonPressOutputs (paints : List Paint) (win : Nat) (x : ℚ) (detail : Nat) :
    List String :=
  match hitTest paints win x with
  | none => []
  | some p =>
    match buttonOfDetail detail with
    | none => []
    | some b => (p.area.on_click.filter (fun h => decide (h.button = b))).map
        (fun h => h.output)

/-!
`Colour::from_str` of src/lib.rs, modelled at the byte level.  A Rust
`&str` is a UTF-8 byte sequence, here a `List Nat` of byte values
(< 256).  Rust byte-range slicing `&value[a..b]` panics when `a > b` or
when `a` or `b` is not a character boundary; a panic is modelled as
`none`, a normal return as `some`.
-/

/-- Rust's `str::is_char_boundary` on a byte sequence: true at 0, at
the length, and at any index holding a non-continuation byte
(`(b as i8) >= -0x40`, i.e. `b < 0x80 ∨ 0xC0 ≤ b`). -/
def isCharBoundary (bytes : List Nat) (i : Nat) : Bool :=
  i == 0 ||
    match bytes.get? i with
    | none => i == bytes.length
    | some b => !(128 ≤ b && b < 192)

/-- Rust slicing `&value[a..b]`: `none` models the slice panic. -/
def sliceStr (bytes : List Nat) (a b : Nat) : Option (List Nat) :=
  if a ≤ b ∧ isCharBoundary bytes a ∧ isCharBoundary bytes b then
    some ((bytes.drop a).take (b - a))
  else
    none

/-- One hex digit value of an ASCII byte, as in `u8::from_str_radix`
with radix 16 (`0-9`, `a-f`, `A-F`). -/
def hexDigitVal (b : Nat) : Option Nat :=
  if 48 ≤ b ∧ b ≤ 57 then some (b - 48)
  else if 97 ≤ b ∧ b ≤ 102 then some (b - 87)
  else if 65 ≤ b ∧ b ≤ 70 then some (b - 55)
  else none

/-- Digit-accumulation loop of `u8::from_str_radix(s, 16)`:
`checked_mul`/`checked_add` against the `u8` range (result < 256);
`none` models `Err` (invalid digit or overflow). -/
def parseHexDigits : Nat → List Nat → Option Nat
  | acc, [] => some acc
  | acc, b :: rest =>
    match hexDigitVal b with
    | none => none
    | some d => if acc * 16 + d < 256 then parseHexDigits (acc * 16 + d) rest else none

/-- `u8::from_str_radix(s, 16)` on a byte slice: optional leading `+`
or `-` sign, then at least one hex digit; a `-` on an unsigned type
underflows on any non-zero digit, so only an all-zero magnitude parses.
`none` models `Err(ParseIntError)`. -/
def fromStrRadix16 (bytes : List Nat) : Option Nat :=
  match bytes with
  | [] => none
  | b :: rest =>
    if b = 43 then
      match rest with
      | [] => none
      | _ => parseHexDigits 0 rest
    else if b = 45 then
      match rest with
      | [] => none
      | _ =>
        match parseHexDigits 0 rest with
        | none => none
        | some v => if v = 0 then some 0 else none
    else
      parseHexDigits 0 bytes

/-- The local `byte` helper of `Colour::from_str`: parse two hex
characters, any failure becoming `BadHexFormat(s)` carrying the slice.
The outer `Option` is absent because no slicing happens here. -/
def byteOfSlice (s : List Nat) : Except (List Nat) Nat :=
  match fromStrRadix16 s with
  | some v => .ok v
  | none => .error s

/-- Equality of parse outcomes is decidable (needed to evaluate
`colour_from_str` on concrete inputs). -/
instance : DecidableEq (Except (List Nat) Colour) := fun a b =>
  match a, b with
  | .error e1, .error e2 =>
    if h : e1 = e2 then .isTrue (by rw [h]) else .isFalse (by simp [h])
  | .error _, .ok _ => .isFalse (by simp)
  | .ok _, .error _ => .isFalse (by simp)
  | .ok c1, .ok c2 =>
    if h : c1 = c2 then .isTrue (by rw [h]) else .isFalse (by simp [h])

/-- `Colour::from_str` of src/lib.rs (lines 117-134) at the byte level:
`none` models a panic from byte-index slicing; `some (.error s)` models
`Err(BadHexFormat(s))`; `some (.ok c)` a parsed colour.  Slices are
taken in evaluation order (`[0..1]`, then `[1..3]`, `[3..5]`, `[5..7]`,
each `?`-propagating its parse error before the next slice). -/
def colour_from_str (bytes : List Nat) : Option (Except (List Nat) Colour) :=
  if bytes.length = 7 then
    match sliceStr bytes 0 1 with
    | none => none
    | some s0 =>
      if s0 = [35] then
        match sliceStr bytes 1 3 with
        | none => none
        | some s1 =>
          match byteOfSlice s1 with
          | .error e => some (.error e)
          | .ok r =>
            match sliceStr bytes 3 5 with
            | none => none
            | some s2 =>
              match byteOfSlice s2 with
              | .error e => some (.error e)
              | .ok g =>
                match sliceStr bytes 5 7 with
                | none => none
                | some s3 =>
                  match byteOfSlice s3 with
                  | .error e => some (.error e)
                  | .ok b => some (.ok { red := r, green := g, blue := b })
      else
        some (.error bytes)
  else
    some (.error bytes)

/-!
Concrete fixtures used by the claim theorems: small outputs, areas and
widgets with explicit measured widths.
-/

/-- An area with the given text and no colour overrides or handlers. -/
def mkArea (t : String) : Area :=
  { text := t, colours := { fg := none, bg := none }, on_click := [] }

/-- The default configuration values of `main` (src/bin/bergamot.rs
lines 86-105), first entry, with height 16 for the worked examples. -/
def cfgFix : Config :=
  { height := 16
    font_str := "Iosevka Term 9"
    default_bg := { red := 51, green := 50, blue := 50 }
    default_fg := { red := 167, green := 165, blue := 165 } }

/-- A 200-wide output whose measuring oracle gives every text the same
pango width `m` (so every layout width is `m + 10`). -/
def mkOutput (win : Nat) (m : ℚ) : Output :=
  { rect := { x := 0, y := 0, width := 200, height := 200 }
    win := win
    cfg := cfgFix
    measure := fun _ => m
    measureH := fun _ => 12 }

/-- A widget with one area, no tag and no constraints. -/
def mkWidget (al : Alignment) (t : String) : Widget :=
  { tag := "", alignment := al, content := [mkArea t], constraints := { cs := [] } }

/-- A widget with one area and a single monitor constraint. -/
def mkWidgetOn (al : Alignment) (t : String) (m : Nat) : Widget :=
  { tag := "", alignment := al, content := [mkArea t],
    constraints := { cs := [.monitor m] } }

/-- A tagged widget fixture. -/
def mkTagged (tg : String) (al : Alignment) (t : String) : Widget :=
  { tag := tg, alignment := al, content := [mkArea t], constraints := { cs := [] } }

/-- The wide paint `[0, 100]` of the spec's hit-test example. -/
def paintWide : Paint :=
  { left := 0, right := 100, win := 5, area := mkArea "wide" }

/-- The narrow paint `[40, 60]` of the spec's hit-test example. -/
def paintNarrow : Paint :=
  { left := 40, right := 60, win := 5, area := mkArea "narrow" }

/-- Position of an alignment in the paint order of `display`
(`left.iter().chain(right.iter()).chain(centered.iter())`): left
first, then right, then center. -/
def alignRank : Alignment → Nat
  | .left => 0
  | .right => 1
  | .center => 2

/-!
Helper lemmas about the paint loop.
-/

/-- The ghost-tagged paint loop projects onto the real one. -/
theorem paintLoopAux_eq_tagged (n win : Nat) :
    ∀ (items : List DisplayItem) (c : Cursors),
    paintLoopAux n win c items =
      ((paintLoopTaggedAux n win c items).1.map Prod.snd,
       (paintLoopTaggedAux n win c items).2) := by
  intro items
  induction items with
  | nil => intro c; rfl
  | cons x rest ih =>
    intro c
    obtain ⟨w, a, l⟩ := x
    simp only [paintLoopAux, paintLoopTaggedAux]
    cases hs : skipWidget n w
    · simp [ih]
    · simp [ih]

/-- The ghost-tagged output pass projects onto the real one. -/
theorem displayOutput_eq_tagged (n : Nat) (out : Output) (ws : List Widget) :
    displayOutput n out ws = (displayOutputTagged n out ws).map Prod.snd := by
  simp only [displayOutput, displayOutputTagged, paintLoopAux_eq_tagged]

/-- The tagged paint loop distributes over list append. -/
theorem paintLoopTaggedAux_append (n win : Nat) :
    ∀ (xs ys : List DisplayItem) (c : Cursors),
    (paintLoopTaggedAux n win c (xs ++ ys)).1 =
      (paintLoopTaggedAux n win c xs).1 ++
        (paintLoopTaggedAux n win (paintLoopTaggedAux n win c xs).2 ys).1 := by
  intro xs
  induction xs with
  | nil => intro ys c; rfl
  | cons x rest ih =>
    intro ys c
    obtain ⟨w, a, l⟩ := x
    simp only [List.cons_append, paintLoopTaggedAux]
    cases hs : skipWidget n w
    · simp [ih]
    · simp [ih]

/-- Every tagged paint originates from an unskipped item of the input
list and carries this output's window handle. -/
theorem paintLoopTaggedAux_origin (n win : Nat) :
    ∀ (items : List DisplayItem) (c : Cursors) (w : Widget) (p : Paint),
    (w, p) ∈ (paintLoopTaggedAux n win c items).1 →
      (∃ a l, (w, a, l) ∈ items) ∧ skipWidget n w = false ∧ p.win = win := by
  intro items
  induction items with
  | nil => intro c w p h; simp [paintLoopTaggedAux] at h
  | cons x rest ih =>
    intro c w p h
    obtain ⟨w0, a0, l0⟩ := x
    simp only [paintLoopTaggedAux] at h
    cases hs : skipWidget n w0
    · rw [hs] at h
      simp only [Bool.false_eq_true, if_false] at h
      rcases List.mem_cons.mp h with heq | htail
      · obtain ⟨hw, hp⟩ := Prod.mk.injEq .. ▸ heq
        subst hw
        refine ⟨⟨a0, l0, List.mem_cons_self _ _⟩, hs, ?_⟩
        rw [hp]
      · obtain ⟨⟨a, l, hmem⟩, hskip, hwin⟩ := ih _ _ _ htail
        exact ⟨⟨a, l, List.mem_cons_of_mem _ hmem⟩, hskip, hwin⟩
    · rw [hs] at h
      simp only [if_true] at h
      obtain ⟨⟨a, l, hmem⟩, hskip, hwin⟩ := ih _ _ _ h
      exact ⟨⟨a, l, List.mem_cons_of_mem _ hmem⟩, hskip, hwin⟩

/-- The bounding rectangle of a widget has exactly the layout's width. -/
theorem make_bounding_rectangle_width (c : Cursors) (w : Widget) (l : Layout) :
    (c.make_bounding_rectangle w l).1.width = l.width := by
  cases h : w.alignment <;>
    simp [Cursors.make_bounding_rectangle, h, Cursors.bump_left, Cursors.bump_right,
      Cursors.bump_center]

/-- When every item of the loop input has a non-negative layout width,
every produced paint satisfies `left ≤ right`. -/
theorem paintLoopAux_left_le_right (n win : Nat) :
    ∀ (items : List DisplayItem) (c : Cursors),
    (∀ x ∈ items, 0 ≤ x.2.2.width) →
    ∀ p ∈ (paintLoopAux n win c items).1, p.left ≤ p.right := by
  intro items
  induction items with
  | nil => intro c _ p hp; simp [paintLoopAux] at hp
  | cons x rest ih =>
    intro c hw p hp
    obtain ⟨w, a, l⟩ := x
    simp only [paintLoopAux] at hp
    have hrest : ∀ x ∈ rest, 0 ≤ x.2.2.width :=
      fun x hx => hw x (List.mem_cons_of_mem _ hx)
    cases hs : skipWidget n w
    · rw [hs] at hp
      simp only [Bool.false_eq_true, if_false] at hp
      rcases List.mem_cons.mp hp with heq | htail
      · subst heq
        simp only
        have hwidth : (0 : ℚ) ≤ (c.make_bounding_rectangle w l).1.width := by
          rw [make_bounding_rectangle_width]
          exact hw (w, a, l) (List.mem_cons_self _ _)
        linarith
      · exact ih _ hrest p htail
    · rw [hs] at hp
      simp only [if_true] at hp
      exact ih _ hrest p hp

/-- Every item produced by `itemsFor` has a layout width of at least
10 when the measuring oracle is non-negative. -/
theorem itemsFor_width_nonneg (out : Output) (ws : List Widget)
    (h : ∀ s, 0 ≤ out.measure s) :
    ∀ x ∈ itemsFor out ws, 0 ≤ x.2.2.width := by
  intro x hx
  simp only [itemsFor, List.mem_flatMap] at hx
  obtain ⟨w, _, hx⟩ := hx
  simp only [List.mem_map] at hx
  obtain ⟨a, _, rfl⟩ := hx
  simp only [Layout.new]
  have := h a.text
  linarith

/-- The chained loop input of one output pass is drawn from its items. -/
theorem chained_subset_items (items : List DisplayItem) (x : DisplayItem)
    (hx : x ∈ (items.filter (fun x => !x.1.alignment.is_center)).filter
            (fun x => !x.1.alignment.is_right) ++
          (items.filter (fun x => !x.1.alignment.is_center)).filter
            (fun x => x.1.alignment.is_right) ++
          items.filter (fun x => x.1.alignment.is_center)) :
    x ∈ items := by
  rcases List.mem_append.mp hx with h1 | h2
  · rcases List.mem_append.mp h1 with ha | hb
    · exact List.mem_of_mem_filter (List.mem_of_mem_filter ha)
    · exact List.mem_of_mem_filter (List.mem_of_mem_filter hb)
  · exact List.mem_of_mem_filter h2

/-!
Helper lemmas about the Widget Store operations.
-/

/-- If no widget carries the tag, `updateWidgets` changes nothing and
reports no match. -/
theorem updateWidgets_not_found (tag : String) (content : List Area) :
    ∀ (ws : List Widget), (∀ w ∈ ws, w.tag ≠ tag) →
    updateWidgets tag content ws = (ws, false) := by
  intro ws
  induction ws with
  | nil => intro _; rfl
  | cons w rest ih =>
    intro h
    simp only [updateWidgets]
    rw [if_neg (h w (List.mem_cons_self _ _))]
    rw [ih (fun x hx => h x (List.mem_cons_of_mem _ hx))]

/-- If `updateWidgets` reports a match, there is a position `i` whose
widget had the tag and got exactly its content replaced, every other
position being untouched. -/
theorem updateWidgets_found (tag : String) (content : List Area) :
    ∀ (ws ws' : List Widget), updateWidgets tag content ws = (ws', true) →
    ∃ i w, ws.get? i = some w ∧ w.tag = tag ∧
      ws'.get? i = some { w with content := content } ∧
      (∀ j, j ≠ i → ws'.get? j = ws.get? j) ∧ ws'.length = ws.length := by
  intro ws
  induction ws with
  | nil => intro ws' h; simp [updateWidgets] at h
  | cons w rest ih =>
    intro ws' h
    simp only [updateWidgets] at h
    by_cases htag : w.tag = tag
    · rw [if_pos htag] at h
      obtain ⟨h1, _⟩ := Prod.mk.injEq .. ▸ h
      refine ⟨0, w, rfl, htag, ?_, ?_, ?_⟩
      · rw [← h1]; rfl
      · intro j hj
        match j with
        | 0 => exact absurd rfl hj
        | j + 1 => rw [← h1]; simp
      · rw [← h1]; simp
    · rw [if_neg htag] at h
      obtain ⟨h1, h2⟩ := Prod.mk.injEq .. ▸ h
      obtain ⟨i, w0, hget, hw0, hget2, hrest, hlen⟩ := ih _ (by rw [Prod.mk.injEq]; exact ⟨rfl, h2⟩)
      refine ⟨i + 1, w0, hget, hw0, ?_, ?_, ?_⟩
      · rw [← h1]; simpa using hget2
      · intro j hj
        match j with
        | 0 => rw [← h1]; rfl
        | j + 1 =>
          rw [← h1]
          simpa using hrest j (fun hji => hj (by rw [hji]))
      · rw [← h1]; simpa using hlen

/-!
Helper lemmas about the ButtonPress minimum-width fold.
-/

/-- The accumulator-or-candidate fold stays inside the candidates. -/
theorem minByWidth_foldl_mem :
    ∀ (rest : List Paint) (acc : Paint),
    rest.foldl (fun acc q => if acc.right - acc.left > q.right - q.left then q else acc) acc
      ∈ acc :: rest := by
  intro rest
  induction rest with
  | nil => intro acc; simp
  | cons r rest ih =>
    intro acc
    simp only [List.foldl_cons]
    by_cases h : acc.right - acc.left > r.right - r.left
    · rw [if_pos h]
      exact List.mem_cons_of_mem _ (ih r)
    · rw [if_neg h]
      rcases List.mem_cons.mp (ih acc) with h1 | h2
      · rw [h1]; exact List.mem_cons_self _ _
      · exact List.mem_cons_of_mem _ (List.mem_cons_of_mem _ h2)

/-- The fold's result has width at most that of the accumulator and of
every candidate. -/
theorem minByWidth_foldl_le :
    ∀ (rest : List Paint) (acc : Paint) (q : Paint), q ∈ acc :: rest →
    (rest.foldl (fun acc q => if acc.right - acc.left > q.right - q.left then q else acc)
        acc).right -
      (rest.foldl (fun acc q => if acc.right - acc.left > q.right - q.left then q else acc)
        acc).left ≤ q.right - q.left := by
  intro rest
  induction rest with
  | nil =>
    intro acc q hq
    rcases List.mem_cons.mp hq with h1 | h2
    · rw [h1]; simp
    · simp at h2
  | cons r rest ih =>
    intro acc q hq
    simp only [List.foldl_cons]
    have hstep : (if acc.right - acc.left > r.right - r.left then r else acc).right -
        (if acc.right - acc.left > r.right - r.left then r else acc).left ≤
          acc.right - acc.left ∧
        (if acc.right - acc.left > r.right - r.left then r else acc).right -
          (if acc.right - acc.left > r.right - r.left then r else acc).left ≤
            r.right - r.left := by
      by_cases h : acc.right - acc.left > r.right - r.left
      · rw [if_pos h]; constructor <;> linarith
      · rw [if_neg h]; constructor <;> linarith
    have hhead := ih (if acc.right - acc.left > r.right - r.left then r else acc)
      (if acc.right - acc.left > r.right - r.left then r else acc) (List.mem_cons_self _ _)
    rcases List.mem_cons.mp hq with h1 | h2
    · rw [h1]; linarith [hstep.1]
    · rcases List.mem_cons.mp h2 with h3 | h4
      · rw [h3]; linarith [hstep.2]
      · exact ih _ q (List.mem_cons_of_mem _ h4)

/-- `minByWidth` returns a member of minimal width. -/
theorem minByWidth_spec (ps : List Paint) (p : Paint) (h : minByWidth ps = some p) :
    p ∈ ps ∧ ∀ q ∈ ps, p.right - p.left ≤ q.right - q.left := by
  match ps, h with
  | p0 :: rest, h =>
    simp only [minByWidth, Option.some.injEq] at h
    subst h
    exact ⟨minByWidth_foldl_mem rest p0, fun q hq => minByWidth_foldl_le rest p0 q hq⟩

/-!
Helper lemmas about alignments.
-/

/-- An alignment that is neither center nor right is left. -/
theorem alignment_eq_left (al : Alignment) (h1 : al.is_center = false)
    (h2 : al.is_right = false) : al = .left := by
  cases al <;> simp_all [Alignment.is_center, Alignment.is_right]

/-- An alignment with `is_right` set is right. -/
theorem alignment_eq_right (al : Alignment) (h : al.is_right = true) : al = .right := by
  cases al <;> simp_all [Alignment.is_right]

/-- An alignment with `is_center` set is center. -/
theorem alignment_eq_center (al : Alignment) (h : al.is_center = true) : al = .center := by
  cases al <;> simp_all [Alignment.is_center]

/-- A list of tagged paints of one constant alignment rank is ordered
by rank. -/
theorem pairwise_rank_of_const (k : Nat) :
    ∀ (l : List (Widget × Paint)), (∀ x ∈ l, alignRank x.1.alignment = k) →
    l.Pairwise (fun x y => alignRank x.1.alignment ≤ alignRank y.1.alignment) := by
  intro l
  induction l with
  | nil => intro _; exact List.Pairwise.nil
  | cons x rest ih =>
    intro h
    constructor
    · intro y hy
      rw [h x (List.mem_cons_self _ _), h y (List.mem_cons_of_mem _ hy)]
    · exact ih (fun y hy => h y (List.mem_cons_of_mem _ hy))

/-- Alignment ranks do not exceed the rank of center. -/
theorem alignRank_le_two (al : Alignment) : alignRank al ≤ 2 := by
  cases al <;> simp [alignRank]

/-- When every item fed to the tagged loop has one alignment rank,
every produced tagged paint has that rank. -/
theorem tagged_rank_const (n win : Nat) (c : Cursors) (items : List DisplayItem) (k : Nat)
    (h : ∀ x ∈ items, alignRank x.1.alignment = k) :
    ∀ wp ∈ (paintLoopTaggedAux n win c items).1, alignRank wp.1.alignment = k := by
  intro wp hwp
  obtain ⟨w, p⟩ := wp
  obtain ⟨⟨a, l, hmem⟩, -, -⟩ := paintLoopTaggedAux_origin n win _ _ w p hwp
  exact h (w, a, l) hmem

/-- Items surviving the not-center, not-right filters are left-aligned. -/
theorem left_filter_rank (items : List DisplayItem) :
    ∀ x ∈ (items.filter (fun x => !x.1.alignment.is_center)).filter
        (fun x => !x.1.alignment.is_right), alignRank x.1.alignment = 0 := by
  intro x hx
  obtain ⟨hx2, hnr⟩ := List.mem_filter.mp hx
  obtain ⟨-, hnc⟩ := List.mem_filter.mp hx2
  rw [alignment_eq_left x.1.alignment (by simpa using hnc) (by simpa using hnr)]
  rfl

/-- Items surviving the not-center, right filters are right-aligned. -/
theorem right_filter_rank (items : List DisplayItem) :
    ∀ x ∈ (items.filter (fun x => !x.1.alignment.is_center)).filter
        (fun x => x.1.alignment.is_right), alignRank x.1.alignment = 1 := by
  intro x hx
  obtain ⟨-, hr⟩ := List.mem_filter.mp hx
  rw [alignment_eq_right x.1.alignment hr]
  rfl

/-- Items surviving the center filter are center-aligned. -/
theorem center_filter_rank (items : List DisplayItem) :
    ∀ x ∈ items.filter (fun x => x.1.alignment.is_center),
      alignRank x.1.alignment = 2 := by
  intro x hx
  obtain ⟨-, hc⟩ := List.mem_filter.mp hx
  rw [alignment_eq_center x.1.alignment hc]
  rfl

/-- The second component of an enumerated pair is a member. -/
theorem snd_mem_of_mem_enumFrom {α : Type _} :
    ∀ (l : List α) (k : Nat) (q : Nat × α), q ∈ l.enumFrom k → q.2 ∈ l := by
  intro l
  induction l with
  | nil => intro k q h; simp [List.enumFrom] at h
  | cons x rest ih =>
    intro k q h
    simp only [List.enumFrom] at h
    rcases List.mem_cons.mp h with h1 | h2
    · rw [h1]; exact List.mem_cons_self _ _
    · exact List.mem_cons_of_mem _ (ih (k + 1) q h2)

/-!
Claim theorems.
-/

/-- C1: the claim says the right cursor is seeded at the output's width
and decreases as right-aligned widgets are added.  The code does
neither: `Cursors::bump_right` adds (`self.right += by`, first
conjunct), and `display` seeds the right cursor at
`output width − total right width` (second conjunct: 160 for a
200-wide output with two right widgets of layout width 20).  At that
input the first right-aligned widget is painted at `[160, 180]`, not
`[180, 200]` (third conjunct). -/
theorem right_cursor_code_behaviour :
    (∀ (c : Cursors) (amt : ℚ), ((c.bump_right amt).2).right = c.right + amt) ∧
    (seedCursors (mkOutput 7 10) 0 40).right = 160 ∧
    displayOutput 0 (mkOutput 7 10) [mkWidget .right "A", mkWidget .right "B"] =
      [{ left := 160, right := 180, win := 7, area := mkArea "A" },
       { left := 180, right := 200, win := 7, area := mkArea "B" }] := by
  refine ⟨fun c amt => rfl, ?_, ?_⟩
  · norm_num [seedCursors, mkOutput]
  · norm_num [displayOutput, itemsFor, mkOutput, mkWidget, mkArea, Layout.new,
      seedCursors, paintLoopAux, skipWidget, Constraints.monitors,
      Cursors.make_bounding_rectangle, Cursors.bump_right, cfgFix,
      Alignment.is_center, Alignment.is_right]

/-- C2 counterexample: with an unconstrained center widget of layout
width 40 and a center widget of layout width 40 constrained to monitor
1, on output index 0 of width 200, the surviving widget is painted at
`[60, 100]`: the center seed is `200/2 − (40+40)/2 = 60`, not the
`200/2 − 40/2 = 80` the claim's filtered sum would give. -/
theorem center_seed_counterexample :
    displayOutput 0 (mkOutput 7 30) [mkWidget .center "C", mkWidgetOn .center "C" 1] =
      [{ left := 60, right := 100, win := 7, area := mkArea "C" }] ∧
    (60 : ℚ) ≠ 200 / 2 - 40 / 2 := by
  constructor
  · norm_num [displayOutput, itemsFor, mkOutput, mkWidget, mkWidgetOn, mkArea, Layout.new,
      seedCursors, paintLoopAux, skipWidget, Constraints.monitors,
      Cursors.make_bounding_rectangle, Cursors.bump_center, cfgFix,
      Alignment.is_center, Alignment.is_right]
    simp
  · norm_num

/-- C2 (amended): monitor-constraint filtering happens per widget
inside the paint loop, after the width sums: a widget whose constraints
exclude the output index produces no Paint (first conjunct, via the
ghost-tagged pass: every painted widget has `skipWidget` false, and the
ghost pass projects to the real one, second conjunct), but the center
seed subtracts half the total width of all center-aligned areas,
surviving or not (third conjunct: the surviving widget lands at
`[60, 100]`, computed from both widths). -/
theorem center_seed_uses_unfiltered_sums :
    (∀ (n : Nat) (out : Output) (ws : List Widget) (w : Widget) (p : Paint),
      (w, p) ∈ displayOutputTagged n out ws → skipWidget n w = false) ∧
    (∀ (n : Nat) (out : Output) (ws : List Widget),
      displayOutput n out ws = (displayOutputTagged n out ws).map Prod.snd) ∧
    displayOutput 0 (mkOutput 7 30) [mkWidget .center "C", mkWidgetOn .center "C" 1] =
      [{ left := 60, right := 100, win := 7, area := mkArea "C" }] := by
  refine ⟨?_, displayOutput_eq_tagged, ?_⟩
  · intro n out ws w p h
    simp only [displayOutputTagged] at h
    exact (paintLoopTaggedAux_origin n out.win _ _ w p h).2.1
  · norm_num [displayOutput, itemsFor, mkOutput, mkWidget, mkWidgetOn, mkArea, Layout.new,
      seedCursors, paintLoopAux, skipWidget, Constraints.monitors,
      Cursors.make_bounding_rectangle, Cursors.bump_center, cfgFix,
      Alignment.is_center, Alignment.is_right]
    simp

/-- Witness for C2's amended theorem at a concrete input: the
unconstrained center widget appears in the tagged pass of output 0 and
is therefore unskipped there. -/
theorem center_seed_uses_unfiltered_sums_w :
    skipWidget 0 (mkWidget .center "C") = false :=
  center_seed_uses_unfiltered_sums.1 0 (mkOutput 7 30)
    [mkWidget .center "C", mkWidgetOn .center "C" 1] (mkWidget .center "C")
    { left := 60, right := 100, win := 7, area := mkArea "C" }
    (by norm_num [displayOutputTagged, itemsFor, mkOutput, mkWidget, mkWidgetOn, mkArea,
      Layout.new, seedCursors, paintLoopTaggedAux, skipWidget, Constraints.monitors,
      Cursors.make_bounding_rectangle, Cursors.bump_center, cfgFix,
      Alignment.is_center, Alignment.is_right])

/-- C4: an update with an empty tag (first conjunct) or with a tag no
stored widget carries (second conjunct) leaves the Widget Store
unchanged and sends no redraw signal: the returned store is the input
and the signal flag is false. -/
theorem update_invalid_or_unknown_tag_noop :
    (∀ (ws : List Widget) (content : List Area),
      updateStore ws "" content = (ws, false)) ∧
    (∀ (ws : List Widget) (tag : String) (content : List Area),
      (∀ w ∈ ws, w.tag ≠ tag) → updateStore ws tag content = (ws, false)) := by
  constructor
  · intro ws content; rfl
  · intro ws tag content h
    by_cases htag : tag = ""
    · simp [updateStore, htag]
    · simp only [updateStore, if_neg htag]
      exact updateWidgets_not_found tag content ws h

/-- Witness for C4 at concrete input: updating tag "zz" in a store
holding only a widget tagged "a" is a no-op with no signal. -/
theorem update_invalid_or_unknown_tag_noop_w :
    updateStore [mkTagged "a" .left "A"] "zz" [] = ([mkTagged "a" .left "A"], false) :=
  update_invalid_or_unknown_tag_noop.2 [mkTagged "a" .left "A"] "zz" [] (by decide)

/-- C5: `draw(new_widgets)` discards the whole store and installs
`new_widgets`, always signalling a redraw (first conjunct); in
particular `Draw([w1])` then `Draw([w2])` leaves exactly `[w2]`
(second conjunct). -/
theorem draw_replaces_store :
    (∀ (ws new_widgets : List Widget), drawStore ws new_widgets = (new_widgets, true)) ∧
    (∀ (ws w1 w2 : List Widget), drawStore (drawStore ws w1).1 w2 = (w2, true)) :=
  ⟨fun _ _ => rfl, fun _ _ _ => rfl⟩

/-- C3: on a ButtonPress at `x`, among the Paints whose window matches
and whose `[left, right]` interval contains `x`, the one of smallest
width is selected (first conjunct); if no Paint matches, nothing
happens: the hit-test is `none` and no handler output is emitted
(second conjunct); with overlapping Paints `[0, 100]` and `[40, 60]`
on one window, a click at `x = 50` selects `[40, 60]` (third
conjunct). -/
theorem hitTest_selects_narrowest :
    (∀ (paints : List Paint) (win : Nat) (x : ℚ) (p : Paint),
      hitTest paints win x = some p →
        (p ∈ paints ∧ p.win = win ∧ p.left ≤ x ∧ x ≤ p.right) ∧
        ∀ q ∈ paints, q.win = win → q.left ≤ x → x ≤ q.right →
          p.right - p.left ≤ q.right - q.left) ∧
    (∀ (paints : List Paint) (win : Nat) (x : ℚ),
      (∀ q ∈ paints, ¬(q.win = win ∧ q.left ≤ x ∧ x ≤ q.right)) →
        hitTest paints win x = none ∧
        ∀ detail, buttonPressOutputs paints win x detail = []) ∧
    hitTest [paintWide, paintNarrow] 5 50 = some paintNarrow := by
  refine ⟨?_, ?_, ?_⟩
  · intro paints win x p h
    obtain ⟨hmem, hmin⟩ := minByWidth_spec _ p h
    obtain ⟨hin, hcond⟩ := List.mem_filter.mp hmem
    obtain ⟨hwin, hle, hge⟩ := of_decide_eq_true hcond
    refine ⟨⟨hin, hwin, hle, hge⟩, ?_⟩
    intro q hq hqwin hqle hqge
    exact hmin q (List.mem_filter.mpr ⟨hq, decide_eq_true ⟨hqwin, hqle, hqge⟩⟩)
  · intro paints win x h
    have hnil : paints.filter (fun p => decide (p.win = win ∧ p.left ≤ x ∧ x ≤ p.right)) = [] := by
      rw [List.filter_eq_nil_iff]
      intro q hq
      simpa using h q hq
    have hnone : hitTest paints win x = none := by
      rw [hitTest, hnil]; rfl
    exact ⟨hnone, fun detail => by rw [buttonPressOutputs, hnone]⟩
  · norm_num [hitTest, minByWidth, paintWide, paintNarrow, mkArea, List.filter,
      decide_eq_true_eq]

/-- Witness for C3 at the spec's concrete example: the selected Paint
`[40, 60]` matches the click and is the narrowest matching Paint. -/
theorem hitTest_selects_narrowest_w :
    ((paintNarrow ∈ [paintWide, paintNarrow] ∧ paintNarrow.win = 5 ∧
        paintNarrow.left ≤ 50 ∧ (50 : ℚ) ≤ paintNarrow.right) ∧
      ∀ q ∈ [paintWide, paintNarrow], q.win = 5 → q.left ≤ 50 → (50 : ℚ) ≤ q.right →
        paintNarrow.right - paintNarrow.left ≤ q.right - q.left) :=
  hitTest_selects_narrowest.1 [paintWide, paintNarrow] 5 50 paintNarrow
    (by norm_num [hitTest, minByWidth, paintWide, paintNarrow, mkArea, List.filter,
      decide_eq_true_eq])

/-- C6: in one output's redraw pass the paints come out ordered by
alignment rank — all left-aligned widgets first, then all
right-aligned ones, with all center-aligned widgets last (first
conjunct, over the ghost-tagged pass), and the ghost pass projects to
the real paint sequence (second conjunct); later paints overdraw
earlier ones on the Canvas, so center content covers any left/right
content in the same x-range. -/
theorem display_paints_center_last :
    ∀ (n : Nat) (out : Output) (ws : List Widget),
      (displayOutputTagged n out ws).Pairwise
        (fun a b => alignRank a.1.alignment ≤ alignRank b.1.alignment) ∧
      displayOutput n out ws = (displayOutputTagged n out ws).map Prod.snd := by
  intro n out ws
  refine ⟨?_, displayOutput_eq_tagged n out ws⟩
  simp only [displayOutputTagged]
  rw [paintLoopTaggedAux_append, paintLoopTaggedAux_append]
  refine List.pairwise_append.mpr
    ⟨List.pairwise_append.mpr ⟨?_, ?_, ?_⟩, ?_, ?_⟩
  · exact pairwise_rank_of_const 0 _
      (tagged_rank_const n out.win _ _ 0 (left_filter_rank _))
  · exact pairwise_rank_of_const 1 _
      (tagged_rank_const n out.win _ _ 1 (right_filter_rank _))
  · intro a ha b hb
    rw [tagged_rank_const n out.win _ _ 0 (left_filter_rank _) a ha,
      tagged_rank_const n out.win _ _ 1 (right_filter_rank _) b hb]
    omega
  · exact pairwise_rank_of_const 2 _
      (tagged_rank_const n out.win _ _ 2 (center_filter_rank _))
  · intro a ha b hb
    rw [tagged_rank_const n out.win _ _ 2 (center_filter_rank _) b hb]
    exact alignRank_le_two _

/-- C7: every tagged paint of an output pass carries that output's
window, and when its widget's monitor constraints are non-empty the
output's index lies in the constraint set (first conjunct); the tagged
pass projects to the real one (second conjunct); concretely, with
outputs `[0, 1, 2]` (windows 10, 11, 12), a widget constrained to
monitor 1 yields exactly one Paint, on window 11 (third conjunct). -/
theorem constrained_widget_only_allowed_outputs :
    (∀ (n : Nat) (out : Output) (ws : List Widget) (w : Widget) (p : Paint),
      (w, p) ∈ displayOutputTagged n out ws →
        p.win = out.win ∧
        (w.constraints.monitors ≠ [] → n ∈ w.constraints.monitors)) ∧
    (∀ (n : Nat) (out : Output) (ws : List Widget),
      displayOutput n out ws = (displayOutputTagged n out ws).map Prod.snd) ∧
    display [mkOutput 10 30, mkOutput 11 30, mkOutput 12 30] [mkWidgetOn .left "C" 1] =
      [{ left := 0, right := 40, win := 11, area := mkArea "C" }] := by
  refine ⟨?_, displayOutput_eq_tagged, ?_⟩
  · intro n out ws w p hmem
    simp only [displayOutputTagged] at hmem
    obtain ⟨-, hskip, hwin⟩ := paintLoopTaggedAux_origin n out.win _ _ w p hmem
    refine ⟨hwin, fun hne => ?_⟩
    by_contra hnot
    have h1 : w.constraints.monitors.isEmpty = false := by
      cases hm : w.constraints.monitors with
      | nil => exact absurd hm hne
      | cons a as => rfl
    have h2 : w.constraints.monitors.any (fun m => m == n) = false := by
      rw [List.any_eq_false]
      intro m hm
      simp only [beq_iff_eq]
      intro hmn
      exact hnot (hmn ▸ hm)
    rw [skipWidget, h1, h2] at hskip
    simp at hskip
  · norm_num [display, List.enum, List.enumFrom, displayOutput, itemsFor, mkOutput,
      mkWidgetOn, mkArea, Layout.new, seedCursors, paintLoopAux, skipWidget,
      Constraints.monitors, Cursors.make_bounding_rectangle, Cursors.bump_left, cfgFix,
      Alignment.is_center, Alignment.is_right]
    simp

/-- Witness for C7 at a concrete input: the Paint of the
monitor-1-constrained widget on output 1 carries window 11, and index
1 is in its constraint set. -/
theorem constrained_widget_only_allowed_outputs_w :
    ({ left := 0, right := 40, win := 11, area := mkArea "C" } : Paint).win =
        (mkOutput 11 30).win ∧
      ((mkWidgetOn .left "C" 1).constraints.monitors ≠ [] →
        1 ∈ (mkWidgetOn .left "C" 1).constraints.monitors) :=
  constrained_widget_only_allowed_outputs.1 1 (mkOutput 11 30) [mkWidgetOn .left "C" 1]
    (mkWidgetOn .left "C" 1) { left := 0, right := 40, win := 11, area := mkArea "C" }
    (by norm_num [displayOutputTagged, itemsFor, mkOutput, mkWidgetOn, mkArea, Layout.new,
      seedCursors, paintLoopTaggedAux, skipWidget, Constraints.monitors,
      Cursors.make_bounding_rectangle, Cursors.bump_left, cfgFix,
      Alignment.is_center, Alignment.is_right])

/-- C8: a successful `update(tag, content)` touches exactly one
position `i` of the store: the widget there had the tag and only its
content is replaced (tag, alignment and constraints are carried over
unchanged by the record update), every other position is untouched and
the length is preserved. -/
theorem update_replaces_only_matched_content :
    ∀ (ws : List Widget) (tag : String) (content : List Area) (ws' : List Widget),
      updateStore ws tag content = (ws', true) →
      ∃ i w, ws.get? i = some w ∧ w.tag = tag ∧
        ws'.get? i = some { w with content := content } ∧
        (∀ j, j ≠ i → ws'.get? j = ws.get? j) ∧ ws'.length = ws.length := by
  intro ws tag content ws' h
  by_cases htag : tag = ""
  · rw [updateStore, if_pos htag] at h
    exact absurd (congrArg Prod.snd h) (by simp)
  · rw [updateStore, if_neg htag] at h
    exact updateWidgets_found tag content ws ws' h

/-- Witness for C8 at a concrete input: updating tag "b" in a
two-widget store replaces exactly the second widget's content. -/
theorem update_replaces_only_matched_content_w :
    ∃ i w, [mkTagged "a" .left "A", mkTagged "b" .right "B"].get? i = some w ∧
      w.tag = "b" ∧
      [mkTagged "a" .left "A",
        { mkTagged "b" .right "B" with content := [mkArea "Z"] }].get? i =
        some { w with content := [mkArea "Z"] } ∧
      (∀ j, j ≠ i →
        [mkTagged "a" .left "A",
          { mkTagged "b" .right "B" with content := [mkArea "Z"] }].get? j =
          [mkTagged "a" .left "A", mkTagged "b" .right "B"].get? j) ∧
      ([mkTagged "a" .left "A",
        { mkTagged "b" .right "B" with content := [mkArea "Z"] }] : List Widget).length =
        ([mkTagged "a" .left "A", mkTagged "b" .right "B"] : List Widget).length :=
  update_replaces_only_matched_content
    [mkTagged "a" .left "A", mkTagged "b" .right "B"] "b" [mkArea "Z"]
    [mkTagged "a" .left "A", { mkTagged "b" .right "B" with content := [mkArea "Z"] }]
    (by decide)

/-- C9: whenever the measuring oracles are non-negative (pango pixel
sizes are), every Paint produced by a full redraw pass over all
outputs satisfies `left ≤ right`, for any widgets and alignments. -/
theorem paint_left_le_right :
    ∀ (windows : List Output) (widgets : List Widget),
      (∀ out ∈ windows, ∀ s, 0 ≤ out.measure s) →
      ∀ p ∈ display windows widgets, p.left ≤ p.right := by
  intro windows widgets h p hp
  simp only [display, List.mem_flatMap] at hp
  obtain ⟨q, hq, hp⟩ := hp
  have hout : q.2 ∈ windows :=
    snd_mem_of_mem_enumFrom windows 0 q (by simpa [List.enum] using hq)
  simp only [displayOutput] at hp
  refine paintLoopAux_left_le_right q.1 q.2.win _ _ ?_ p hp
  intro x hx
  exact itemsFor_width_nonneg q.2 widgets (h q.2 hout) x (chained_subset_items _ x hx)

/-- Witness for C9 at a concrete input: the single Paint of a one
left-aligned widget on a single output has `left ≤ right`. -/
theorem paint_left_le_right_w :
    ({ left := 0, right := 20, win := 7, area := mkArea "A" } : Paint).left ≤
      ({ left := 0, right := 20, win := 7, area := mkArea "A" } : Paint).right :=
  paint_left_le_right [mkOutput 7 10] [mkWidget .left "A"]
    (by
      intro out hout s
      simp only [List.mem_singleton] at hout
      subst hout
      norm_num [mkOutput])
    { left := 0, right := 20, win := 7, area := mkArea "A" }
    (by norm_num [display, List.enum, List.enumFrom, displayOutput, itemsFor, mkOutput,
      mkWidget, mkArea, Layout.new, seedCursors, paintLoopAux, skipWidget,
      Constraints.monitors, Cursors.make_bounding_rectangle, Cursors.bump_left, cfgFix,
      Alignment.is_center, Alignment.is_right])

/-- C10 counterexample: the claim's example input "#éaaaa" (bytes
`[35, 195, 169, 97, 97, 97, 97]`) does not panic: all the byte indices
the slicing uses (1, 3, 5) are character boundaries there, and
`from_str` returns `BadHexFormat("é")` (slice `[195, 169]`) instead. -/
theorem colour_from_str_example_no_panic :
    colour_from_str [35, 195, 169, 97, 97, 97, 97] =
      some (.error [195, 169]) ∧
    colour_from_str [35, 195, 169, 97, 97, 97, 97] ≠ none := by
  exact ⟨by decide, by decide⟩

/-- C10 (amended): `Colour::from_str` reaches a verdict (never a slice
panic) on every 7-byte input whose byte indices 1, 3 and 5 are
character boundaries (first conjunct); for an input where a slice
boundary falls inside a multi-byte character, such as "#aéaaa" (bytes
`[35, 97, 195, 169, 97, 97, 97]`, index 3 inside "é"), the slicing
panics instead of returning `BadHexFormat` (second conjunct); on a
well-formed input like "#333232" it parses (third conjunct). -/
theorem colour_from_str_misaligned_slice_panics :
    (∀ (bytes : List Nat), bytes.length = 7 →
      isCharBoundary bytes 1 = true → isCharBoundary bytes 3 = true →
      isCharBoundary bytes 5 = true → colour_from_str bytes ≠ none) ∧
    colour_from_str [35, 97, 195, 169, 97, 97, 97] = none ∧
    colour_from_str [35, 51, 51, 51, 50, 51, 50] =
      some (.ok { red := 51, green := 50, blue := 50 }) := by
  refine ⟨?_, by decide, by decide⟩
  intro bytes hlen h1 h3 h5
  have h0 : isCharBoundary bytes 0 = true := by simp [isCharBoundary]
  have h7 : isCharBoundary bytes 7 = true := by
    have hget : bytes[7]? = none := List.getElem?_eq_none (by omega)
    simp [isCharBoundary, hget, hlen]
  have hs01 : sliceStr bytes 0 1 = some ((bytes.drop 0).take 1) := by
    simp [sliceStr, h0, h1]
  have hs13 : sliceStr bytes 1 3 = some ((bytes.drop 1).take 2) := by
    simp [sliceStr, h1, h3]
  have hs35 : sliceStr bytes 3 5 = some ((bytes.drop 3).take 2) := by
    simp [sliceStr, h3, h5]
  have hs57 : sliceStr bytes 5 7 = some ((bytes.drop 5).take 2) := by
    simp [sliceStr, h5, h7]
  simp only [colour_from_str, hlen, hs01, hs13, hs35, hs57, reduceIte]
  repeat' split
  all_goals simp

/-- Witness for C10's amended theorem at a concrete input: the
well-formed "#333232" has all its slice boundaries on character
boundaries, so it cannot panic. -/
theorem colour_from_str_misaligned_slice_panics_w :
    colour_from_str [35, 51, 51, 51, 50, 51, 50] ≠ none :=
  colour_from_str_misaligned_slice_panics.1 [35, 51, 51, 51, 50, 51, 50]
    (by decide) (by decide) (by decide) (by decide)

end Bergamot
